import Mathlib

/-!
Verification development for the neural-network-style animation engine
(`src/neuralAnimationLogical.js`).

The JavaScript source is shallowly embedded: JS numbers are modelled as
rationals (`ℚ`), mutable per-node state becomes explicit state passing on
`List Node`, and every use of the environment (`Math.random()`, the array
shuffle obtained from `sort` with a random comparator, `Date.now()`-driven
sine values, `requestAnimationFrame` handles) is injected as an explicit
parameter, following the design note of the engine that all randomness is
isolated behind an injectable source.
-/

namespace NeuralAnimation

/-- A connection record `{ targetId: id }` (source line 135). -/
structure Conn where
  targetId : Nat
deriving DecidableEq

/-- A node of the topology, mirroring the object literal built in `setup`
(source lines 126–136). -/
structure Node where
  id : Nat
  x : ℚ
  y : ℚ
  baseRadius : ℚ
  currentRadius : ℚ
  layerIndex : Nat
  activationLevel : ℚ
  incomingSignal : ℚ
  connections : List Conn
deriving DecidableEq

/-- The numeric / structural configuration record (source lines 14–55).
Color strings are handled separately by `processColors` below; only the
fields the simulation and the visual mapper read are kept here. -/
structure Config where
  layers : List Nat
  hSpacingMultiplier : ℚ
  vSpacingMultiplier : ℚ
  positionJitter : ℚ
  baseNodeRadius : ℚ
  nodeRadiusVariance : ℚ
  nodePulseMagnitude : ℚ
  nodePulseSpeed : ℚ
  connectionWidth : ℚ
  activeConnectionWidth : ℚ
  connectionGlowBlur : ℚ
  useCurves : Bool
  inputActivationProbability : ℚ
  signalPropagationSpeed : ℚ
  activationThreshold : ℚ
  activationBoost : ℚ
  decayRate : ℚ
  minActivationLevel : ℚ
  maxConnectionsPerNode : Nat

/-- The injected randomness used by `setup`: `jx i`, `jy i`, `jr i` are the
`Math.random()` draws used for the position jitter and radius variance of the
node with id `i`; `shuffle s l` is the result of
`[...l].sort(() => 0.5 - Math.random())` performed for source node `s`
(source lines 125, 128–129, 147).  A JS array sort always returns a
permutation of its input, whatever the comparator, which is imposed as a
`List.Perm` hypothesis in the theorems below. -/
structure SetupRand where
  jx : Nat → ℚ
  jy : Nat → ℚ
  jr : Nat → ℚ
  shuffle : Nat → List Nat → List Nat

/-- Node creation for one layer (source lines 108–140): positions on a
centered grid with jitter, radius `max 1 (base + (rand - 0.5) * 2 * variance)`,
zero activation, empty connection list, sequential ids from `startId`. -/
def buildLayer (cfg : Config) (r : SetupRand) (w h : ℚ) (layerIndex nodeCount startId : Nat) :
    List Node :=
  let layerCount := cfg.layers.length
  let totalWidth := w * cfg.hSpacingMultiplier
  let startX := (w - totalWidth) / 2
  let layerSpacing : ℚ := if 1 < layerCount then totalWidth / ((layerCount : ℚ) - 1) else 0
  let layerX := startX + (layerIndex : ℚ) * layerSpacing
  let totalHeight := h * cfg.vSpacingMultiplier
  let startY := (h - totalHeight) / 2
  let nodeSpacing : ℚ :=
    if 1 < nodeCount then totalHeight / ((nodeCount : ℚ) - 1) else totalHeight / 2
  (List.range nodeCount).map (fun i =>
    let id := startId + i
    let baseY := if nodeCount = 1 then startY + totalHeight / 2 else startY + (i : ℚ) * nodeSpacing
    let nodeRadius := cfg.baseNodeRadius + (r.jr id - 1/2) * 2 * cfg.nodeRadiusVariance
    { id := id
      x := layerX + (r.jx id - 1/2) * cfg.positionJitter
      y := baseY + (r.jy id - 1/2) * cfg.positionJitter
      baseRadius := max 1 nodeRadius
      currentRadius := max 1 nodeRadius
      layerIndex := layerIndex
      activationLevel := 0
      incomingSignal := 0
      connections := [] })

/-- Connection creation for one source node (source lines 144–152): shuffle
the ids of the freshly built next layer, then push
`min maxConnectionsPerNode shuffled.length` of them onto the connection
list of the source. -/
def connectTo (cfg : Config) (sh : Nat → List Nat → List Nat) (targetIds : List Nat)
    (n : Node) : Node :=
  let shuffled := sh n.id targetIds
  let count := min cfg.maxConnectionsPerNode shuffled.length
  { n with connections := n.connections ++ (shuffled.take count).map (fun t => { targetId := t }) }

/-- The layer loop of `setup` (source lines 115–155), carried out layer by
layer: build the nodes of the current layer, connect the previous layer to it
(only when `0 < layerIndex`, as in the source), and recurse with the current
layer as the new previous layer.  The returned list is the `nodes` array in
creation order. -/
def setupGo (cfg : Config) (r : SetupRand) (w h : ℚ) :
    List Nat → Nat → Nat → List Node → List Node
  | [], _, _, prev => prev
  | nodeCount :: rest, layerIndex, nid, prev =>
    let cur := buildLayer cfg r w h layerIndex nodeCount nid
    let prevC :=
      if 0 < layerIndex then prev.map (connectTo cfg r.shuffle (cur.map (fun m => m.id)))
      else prev
    prevC ++ setupGo cfg r w h rest (layerIndex + 1) (nid + nodeCount) cur

/-- `setup` (source lines 100–156): the canvas dimensions `w h` are the
window dimensions read at line 101–102; node ids restart from 0. -/
def setup (cfg : Config) (r : SetupRand) (w h : ℚ) : List Node :=
  setupGo cfg r w h cfg.layers 0 0 []

/-- `nodeMap.get` (source line 59, populated at line 138): resolve a node id.
`setup` assigns pairwise distinct ids (theorem `setup_map_id` below), so the
first match is the unique node carrying the id, exactly as in the `Map`. -/
def findNode (ns : List Node) (i : Nat) : Option Node :=
  ns.find? (fun n => n.id == i)

/-- One `targetNode.incomingSignal += signalStrength` step (source lines
174–178).  `nodeMap.get` resolves an id to the unique node carrying it
(`setup` assigns pairwise distinct ids, theorem `setup_map_id`); a dangling
`targetId` matches no node and the addition is skipped, exactly like the
`if (targetNode)` guard. -/
def addSignal (amount : ℚ) (tid : Nat) (ns : List Node) : List Node :=
  ns.map (fun t => if t.id == tid then { t with incomingSignal := t.incomingSignal + amount } else t)

/-- The body of the propagation loop for the source at array position `i`
(source lines 169–181), reading the source from the current (possibly
already signal-mutated) array, as the JS `forEach` does. -/
def propagateStep (cfg : Config) (ns : List Node) (i : Nat) : List Node :=
  match ns[i]? with
  | none => ns
  | some src =>
    if cfg.minActivationLevel < src.activationLevel then
      src.connections.foldl
        (fun acc c => addSignal (src.activationLevel * cfg.signalPropagationSpeed) c.targetId acc)
        ns
    else ns

/-- Steps 1 and 2 of `update` (source lines 165–181): reset every
`incomingSignal` to 0, then run the propagation loop over all array
positions in order. -/
def phase1 (cfg : Config) (ns : List Node) : List Node :=
  (List.range ns.length).foldl (propagateStep cfg)
    (ns.map (fun n => { n with incomingSignal := 0 }))

/-- The signal one source node contributes to the id `tid` during
propagation: `activationLevel × signalPropagationSpeed` once per connection
targeting `tid`, and only when the source is above the minimum activation
level (source lines 171–178). -/
def contribOf (cfg : Config) (src : Node) (tid : Nat) : ℚ :=
  if cfg.minActivationLevel < src.activationLevel then
    ((src.connections.filter (fun c => c.targetId == tid)).length : ℚ)
      * (src.activationLevel * cfg.signalPropagationSpeed)
  else 0

/-- Total signal accumulated at id `tid` from the pre-tick state `ns`. -/
def incomingFor (cfg : Config) (ns : List Node) (tid : Nat) : ℚ :=
  (ns.map (fun s => contribOf cfg s tid)).sum

/-- Step 3 of `update` for one node (source lines 184–216).  `rand i` is the
`Math.random()` draw for the input-layer trigger of node `i` (line 195), and
`wave i` is the value of `Math.sin(Date.now() * 0.01 * nodePulseSpeed +
node.layerIndex)` observed for node `i` (line 214) — both environment
inputs, injected. -/
def stepNode (cfg : Config) (rand wave : Nat → ℚ) (n : Node) : Node :=
  let a0 := n.activationLevel
  let a1 := if cfg.minActivationLevel < a0 then a0 - cfg.decayRate else a0
  let a2 :=
    if n.layerIndex = 0 then
      if rand n.id < cfg.inputActivationProbability then max a1 (1/10) + cfg.activationBoost
      else a1
    else
      if cfg.activationThreshold ≤ n.incomingSignal then
        max a1 (1/10) + cfg.activationBoost * (n.incomingSignal / cfg.activationThreshold)
      else a1
  let aF := max 0 a2
  let pulse :=
    if 0 < cfg.nodePulseMagnitude then wave n.id * cfg.nodePulseMagnitude * min 1 aF else 0
  { n with activationLevel := aF, currentRadius := n.baseRadius + pulse }

/-- One tick of the activation simulator, `update` (source lines 159–217). -/
def update (cfg : Config) (rand wave : Nat → ℚ) (ns : List Node) : List Node :=
  (phase1 cfg ns).map (stepNode cfg rand wave)

/-- A parsed rgba color `{r, g, b, a}` (source line 67). -/
structure ColorObj where
  r : ℚ
  g : ℚ
  b : ℚ
  a : ℚ
deriving DecidableEq

/-- `parseColor` (source lines 64–70).  The regex match outcome is modelled
as an `Option ColorObj`: a successful match yields the parsed channels, a
failed one falls back to the neutral `{50, 50, 50, 0.1}` — the function is
total, it never throws. -/
def parseColor (m : Option ColorObj) : ColorObj :=
  m.getD { r := 50, g := 50, b := 50, a := 1/10 }

/-- The four parsed-color globals set by `processColors` (source lines
85–97). -/
structure ParsedColors where
  parsedNodeColor : ColorObj
  parsedActiveNodeColor : ColorObj
  parsedConnectionColor : ColorObj
  parsedActiveConnectionColors : List ColorObj
deriving DecidableEq

/-- `processColors` (source lines 88–97): parse every configured color; if
the active-connection palette comes out empty, substitute the single-entry
fallback, the parse of the literal rgba(255,255,255,0.9), which is `{255, 255, 255, 0.9}`. -/
def processColors (nodeColor activeNodeColor connectionColor : Option ColorObj)
    (activeConnectionColors : List (Option ColorObj)) : ParsedColors :=
  let pal := activeConnectionColors.map parseColor
  { parsedNodeColor := parseColor nodeColor
    parsedActiveNodeColor := parseColor activeNodeColor
    parsedConnectionColor := parseColor connectionColor
    parsedActiveConnectionColors :=
      if pal.isEmpty then [parseColor (some { r := 255, g := 255, b := 255, a := 9/10 })]
      else pal }

/-- `lerp` (source line 71): `start + (end - start) * clamp01 amount`. -/
def lerp (s e t : ℚ) : ℚ := s + (e - s) * max 0 (min 1 t)

/-- `lerpColor` (source lines 72–79): per-channel lerp, rounded
(`Math.round` rounds half toward +∞, as does `round` on `ℚ`) and clamped to
[0,255] for r/g/b; alpha is lerped exactly. -/
def lerpColor (A B : ColorObj) (amount : ℚ) : ColorObj :=
  let t := max 0 (min 1 amount)
  { r := max 0 (min 255 ((round (lerp A.r B.r t) : ℤ) : ℚ))
    g := max 0 (min 255 ((round (lerp A.g B.g t) : ℤ) : ℚ))
    b := max 0 (min 255 ((round (lerp A.b B.b t) : ℤ) : ℚ))
    a := lerp A.a B.a t }

/-- The connection visual mapping of `draw` as a pure function of the
clamped activation `a` (source lines 239–255): palette interpolation with
`colorIndex = floor(a * (N - 1))`, a blend from the dim base connection
color by `a / 0.1` when `a < 0.1`, stroke width `lerp(connectionWidth,
activeConnectionWidth, a)` and glow `lerp(0, connectionGlowBlur, a)`.
Palette indexing uses a default only Lean needs: for `a ∈ [0, 1]` and a
nonempty palette both indices are in range, as in the source. -/
def connectionVisual (cfg : Config) (palette : List ColorObj) (dim : ColorObj) (a : ℚ) :
    ColorObj × ℚ × ℚ :=
  let colorIndex := (⌊a * ((palette.length : ℚ) - 1)⌋).toNat
  let nextColorIndex := min (palette.length - 1) (colorIndex + 1)
  let lerpAmount := a * ((palette.length : ℚ) - 1) - (colorIndex : ℚ)
  let startColor := palette.getD colorIndex { r := 0, g := 0, b := 0, a := 0 }
  let endColor := palette.getD nextColorIndex { r := 0, g := 0, b := 0, a := 0 }
  let c0 := lerpColor startColor endColor lerpAmount
  let c := if a < 1/10 then lerpColor dim c0 (a / (1/10)) else c0
  (c, lerp cfg.connectionWidth cfg.activeConnectionWidth a, lerp 0 cfg.connectionGlowBlur a)

/-- A color whose r/g/b channels are integral and within [0,255], as
`parseColor` produces for any in-range rgba string. -/
def intColor (c : ColorObj) : Prop :=
  ((round c.r : ℚ) = c.r ∧ 0 ≤ c.r ∧ c.r ≤ 255)
    ∧ ((round c.g : ℚ) = c.g ∧ 0 ≤ c.g ∧ c.g ≤ 255)
    ∧ ((round c.b : ℚ) = c.b ∧ 0 ≤ c.b ∧ c.b ≤ 255)

/-- The lifecycle state owned by one engine instance: the `nodes` array, the
`animationFrameId` handle (`none` = stopped) and whether the window resize
listener is registered (source lines 57–58, 317–329). -/
structure Engine where
  nodes : List Node
  animationFrameId : Option Nat
  resizeListenerAttached : Bool
deriving DecidableEq

/-- `start` (source lines 317–323): a no-op while a frame is scheduled;
otherwise build the topology if none exists, store the fresh
`requestAnimationFrame` handle (injected, never 0 hence modelled as the
payload of `some`) and register the resize listener. -/
def start (cfg : Config) (r : SetupRand) (w h : ℚ) (handle : Nat) (e : Engine) : Engine :=
  match e.animationFrameId with
  | some _ => e
  | none =>
    { nodes := if e.nodes.isEmpty then setup cfg r w h else e.nodes
      animationFrameId := some handle
      resizeListenerAttached := true }

/-- `stop` (source lines 324–329): a no-op while stopped; otherwise cancel
the scheduled frame and release the resize listener. -/
def stop (e : Engine) : Engine :=
  match e.animationFrameId with
  | some _ =>
    { nodes := e.nodes, animationFrameId := none, resizeListenerAttached := false }
  | none => e

/-! Concrete instances used to exercise the theorems.  `cfgW` keeps the
logical parameters of the source (`activationThreshold 0.6`, `activationBoost
1.5`, `decayRate 0.04`, `minActivationLevel 0.01`, `signalPropagationSpeed
1`) with a two-layer `[1, 1]` structure and jitter disabled. -/

def cfgW : Config :=
  { layers := [1, 1], hSpacingMultiplier := 1, vSpacingMultiplier := 1,
    positionJitter := 0, baseNodeRadius := 3, nodeRadiusVariance := 0,
    nodePulseMagnitude := 1, nodePulseSpeed := 1/20, connectionWidth := 1/2,
    activeConnectionWidth := 3/2, connectionGlowBlur := 4, useCurves := false,
    inputActivationProbability := 1/50, signalPropagationSpeed := 1,
    activationThreshold := 3/5, activationBoost := 3/2, decayRate := 1/25,
    minActivationLevel := 1/100, maxConnectionsPerNode := 5 }

/-- Deterministic environment: every `Math.random()` draw is `1/2` and each
per-source shuffle is the identity permutation. -/
def rW : SetupRand :=
  { jx := fun _ => 1/2, jy := fun _ => 1/2, jr := fun _ => 1/2,
    shuffle := fun _ l => l }

/-- Input-trigger draws that never fire (`1 < 1/50` is false). -/
def randW : Nat → ℚ := fun _ => 1

/-- A tick at which every observed sine value is 0. -/
def waveW : Nat → ℚ := fun _ => 0

/-- An input-layer source node at full activation, connected to id 1. -/
def srcW : Node :=
  { id := 0, x := 0, y := 0, baseRadius := 3, currentRadius := 3, layerIndex := 0,
    activationLevel := 1, incomingSignal := 0, connections := [{ targetId := 1 }] }

/-- A quiescent layer-1 target node. -/
def tgtW : Node :=
  { id := 1, x := 4, y := 0, baseRadius := 3, currentRadius := 3, layerIndex := 1,
    activationLevel := 0, incomingSignal := 0, connections := [] }

def nsW : List Node := [srcW, tgtW]

/-- `srcW` after one tick: decayed to `1 - 1/25`, no random trigger. -/
def srcPostW : Node :=
  { id := 0, x := 0, y := 0, baseRadius := 3, currentRadius := 3, layerIndex := 0,
    activationLevel := 24/25, incomingSignal := 0, connections := [{ targetId := 1 }] }

/-- `tgtW` after one tick: received signal 1, boosted to
`max 0 0.1 + 1.5 * (1 / 0.6) = 2.6`. -/
def tgtPostW : Node :=
  { id := 1, x := 4, y := 0, baseRadius := 3, currentRadius := 3, layerIndex := 1,
    activationLevel := 13/5, incomingSignal := 1, connections := [] }

/-- Like `tgtW` but already at full activation, to expose the decay applied
before the threshold boost. -/
def tgt2W : Node :=
  { id := 1, x := 4, y := 0, baseRadius := 3, currentRadius := 3, layerIndex := 1,
    activationLevel := 1, incomingSignal := 0, connections := [] }

def nsC2 : List Node := [srcW, tgt2W]

/-- A layer-1 node sitting strictly between 0 and `minActivationLevel`:
the tick leaves it untouched (no decay below the minimum level). -/
def nC5 : Node :=
  { id := 0, x := 0, y := 0, baseRadius := 3, currentRadius := 3, layerIndex := 1,
    activationLevel := 1/200, incomingSignal := 0, connections := [] }

def nsC5 : List Node := [nC5]

/-- The default active-connection palette of the source, parsed (lines 32-37). -/
def paletteW : List ColorObj :=
  [{ r := 100, g := 180, b := 255, a := 7/10 },
   { r := 160, g := 220, b := 255, a := 17/20 },
   { r := 220, g := 250, b := 255, a := 19/20 },
   { r := 255, g := 255, b := 255, a := 9/10 }]

/-- The dim base connection color of the source, parsed (line 30). -/
def dimW : ColorObj := { r := 80, g := 130, b := 200, a := 1/10 }

/-- `tgt2W` after one tick: decay `1 - 1/25` applies before the boost, so the
activation lands at `24/25 + 1.5 * (1 / 0.6) = 173/50`, not `1 + 2.5`. -/
def tgt2PostW : Node :=
  { id := 1, x := 4, y := 0, baseRadius := 3, currentRadius := 3, layerIndex := 1,
    activationLevel := 173/50, incomingSignal := 1, connections := [] }

/-! ### Structural lemmas about the topology builder -/

theorem buildLayer_length (cfg : Config) (r : SetupRand) (w h : ℚ) (L c s : Nat) :
    (buildLayer cfg r w h L c s).length = c := by
  simp [buildLayer]

theorem buildLayer_map_id (cfg : Config) (r : SetupRand) (w h : ℚ) (L c s : Nat) :
    (buildLayer cfg r w h L c s).map (fun n => n.id) = (List.range c).map (fun i => s + i) := by
  simp [buildLayer, List.map_map]

theorem mem_buildLayer (cfg : Config) (r : SetupRand) (w h : ℚ) (L c s : Nat) (n : Node)
    (hn : n ∈ buildLayer cfg r w h L c s) :
    n.layerIndex = L ∧ n.connections = [] ∧ n.activationLevel = 0 := by
  simp only [buildLayer, List.mem_map, List.mem_range] at hn
  obtain ⟨i, -, rfl⟩ := hn
  exact ⟨rfl, rfl, rfl⟩

theorem connectTo_id (cfg : Config) (sh : Nat → List Nat → List Nat) (tids : List Nat)
    (n : Node) : (connectTo cfg sh tids n).id = n.id := rfl

theorem connectTo_layerIndex (cfg : Config) (sh : Nat → List Nat → List Nat) (tids : List Nat)
    (n : Node) : (connectTo cfg sh tids n).layerIndex = n.layerIndex := rfl

theorem connectTo_activationLevel (cfg : Config) (sh : Nat → List Nat → List Nat)
    (tids : List Nat) (n : Node) :
    (connectTo cfg sh tids n).activationLevel = n.activationLevel := rfl

theorem connectTo_targets (cfg : Config) (sh : Nat → List Nat → List Nat) (tids : List Nat)
    (hsh : ∀ s l, (sh s l).Perm l) (n : Node) (hconn : n.connections = [])
    (co : Conn) (hco : co ∈ (connectTo cfg sh tids n).connections) : co.targetId ∈ tids := by
  simp only [connectTo, hconn, List.nil_append, List.mem_map] at hco
  obtain ⟨t, ht, rfl⟩ := hco
  exact (hsh n.id tids).mem_iff.mp (List.mem_of_mem_take ht)

theorem connectTo_length (cfg : Config) (sh : Nat → List Nat → List Nat) (tids : List Nat)
    (hsh : ∀ s l, (sh s l).Perm l) (n : Node) (hconn : n.connections = []) :
    (connectTo cfg sh tids n).connections.length
      = min cfg.maxConnectionsPerNode tids.length := by
  simp only [connectTo, hconn, List.nil_append, List.length_map, List.length_take]
  rw [(hsh n.id tids).length_eq]
  omega

theorem setupGo_cons (cfg : Config) (r : SetupRand) (w h : ℚ) (c : Nat) (rest : List Nat)
    (j nid : Nat) (prev : List Node) :
    setupGo cfg r w h (c :: rest) j nid prev
      = (if 0 < j then
          prev.map (connectTo cfg r.shuffle ((buildLayer cfg r w h j c nid).map (fun m => m.id)))
         else prev)
        ++ setupGo cfg r w h rest (j + 1) (nid + c) (buildLayer cfg r w h j c nid) := rfl

theorem setupGo_map_id (cfg : Config) (r : SetupRand) (w h : ℚ) (layers : List Nat) :
    ∀ (j nid : Nat) (prev : List Node),
      (setupGo cfg r w h layers j nid prev).map (fun n => n.id)
        = prev.map (fun n => n.id) ++ (List.range layers.sum).map (fun i => nid + i) := by
  induction layers with
  | nil => intro j nid prev; simp [setupGo]
  | cons c rest ih =>
    intro j nid prev
    rw [setupGo_cons, List.map_append, ih]
    have hpc : (if 0 < j then
          prev.map (connectTo cfg r.shuffle ((buildLayer cfg r w h j c nid).map (fun m => m.id)))
         else prev).map (fun n => n.id) = prev.map (fun n => n.id) := by
      split
      · simp [List.map_map, connectTo_id]
      · rfl
    rw [hpc, buildLayer_map_id, List.sum_cons, List.range_add, List.map_append, List.map_map]
    congr 1
    congr 1
    apply List.map_congr_left
    intro i _
    simp [Function.comp]
    omega

theorem setup_map_id (cfg : Config) (r : SetupRand) (w h : ℚ) :
    (setup cfg r w h).map (fun n => n.id) = List.range cfg.layers.sum := by
  rw [setup, setupGo_map_id]
  simp

theorem setup_id_nodup (cfg : Config) (r : SetupRand) (w h : ℚ) :
    ((setup cfg r w h).map (fun n => n.id)).Nodup := by
  rw [setup_map_id]; exact List.nodup_range _

theorem findNode_eq_of_mem (ns : List Node) (h : (ns.map (fun n => n.id)).Nodup)
    (t : Node) (ht : t ∈ ns) : findNode ns t.id = some t := by
  induction ns with
  | nil => cases ht
  | cons a l ih =>
    rw [List.map_cons, List.nodup_cons] at h
    by_cases hid : a.id = t.id
    · rcases List.mem_cons.mp ht with rfl | htl
      · rw [findNode, List.find?_cons_of_pos _ (by simp)]
      · exact absurd (hid ▸ List.mem_map_of_mem (fun n => n.id) htl) h.1
    · rw [findNode, List.find?_cons_of_neg _ (by simp [hid])]
      rcases List.mem_cons.mp ht with rfl | htl
      · exact absurd rfl hid
      · exact ih h.2 htl

theorem setupGo_forward (cfg : Config) (r : SetupRand) (w h : ℚ)
    (hsh : ∀ s l, (r.shuffle s l).Perm l) (layers : List Nat) :
    ∀ (j nid : Nat) (prev : List Node),
      (∀ n ∈ prev, n.connections = []) →
      (∀ n ∈ prev, n.layerIndex + 1 = j) →
      (∀ n ∈ setupGo cfg r w h layers j nid prev, ∀ co ∈ n.connections,
        ∃ t ∈ setupGo cfg r w h layers j nid prev,
          t.id = co.targetId ∧ t.layerIndex = n.layerIndex + 1)
      ∧ (∀ n ∈ prev, ∃ m ∈ setupGo cfg r w h layers j nid prev,
          m.id = n.id ∧ m.layerIndex = n.layerIndex) := by
  induction layers with
  | nil =>
    intro j nid prev hconn _
    constructor
    · intro n hn co hco
      rw [setupGo] at hn
      rw [hconn n hn] at hco
      cases hco
    · intro n hn
      exact ⟨n, by rw [setupGo]; exact hn, rfl, rfl⟩
  | cons c rest ih =>
    intro j nid prev hconn hlayer
    have hcur_conn : ∀ n ∈ buildLayer cfg r w h j c nid, n.connections = [] :=
      fun n hn => (mem_buildLayer cfg r w h j c nid n hn).2.1
    have hcur_layer : ∀ n ∈ buildLayer cfg r w h j c nid, n.layerIndex + 1 = j + 1 :=
      fun n hn => by rw [(mem_buildLayer cfg r w h j c nid n hn).1]
    obtain ⟨ih1, ih2⟩ := ih (j + 1) (nid + c) (buildLayer cfg r w h j c nid) hcur_conn hcur_layer
    constructor
    · intro n hn co hco
      rw [setupGo_cons] at hn
      rcases List.mem_append.mp hn with hnp | hnr
      · by_cases hj : 0 < j
        · rw [if_pos hj] at hnp
          obtain ⟨n₀, hn₀, rfl⟩ := List.mem_map.mp hnp
          have htid := connectTo_targets cfg r.shuffle _ hsh n₀ (hconn n₀ hn₀) co hco
          obtain ⟨t₀, ht₀, htid_eq⟩ := List.mem_map.mp htid
          obtain ⟨m, hm, hmid, hmlayer⟩ := ih2 t₀ ht₀
          refine ⟨m, ?_, ?_, ?_⟩
          · rw [setupGo_cons]
            exact List.mem_append.mpr (Or.inr hm)
          · rw [hmid, htid_eq]
          · rw [hmlayer, (mem_buildLayer cfg r w h j c nid t₀ ht₀).1, connectTo_layerIndex,
              hlayer n₀ hn₀]
        · rw [if_neg hj] at hnp
          rw [hconn n hnp] at hco
          cases hco
      · obtain ⟨t, ht, h1, h2⟩ := ih1 n hnr co hco
        refine ⟨t, ?_, h1, h2⟩
        rw [setupGo_cons]
        exact List.mem_append.mpr (Or.inr ht)
    · intro n hn
      by_cases hj : 0 < j
      · refine ⟨connectTo cfg r.shuffle ((buildLayer cfg r w h j c nid).map (fun m => m.id)) n,
          ?_, connectTo_id cfg r.shuffle _ n, connectTo_layerIndex cfg r.shuffle _ n⟩
        rw [setupGo_cons, if_pos hj]
        exact List.mem_append.mpr (Or.inl (List.mem_map_of_mem _ hn))
      · refine ⟨n, ?_, rfl, rfl⟩
        rw [setupGo_cons, if_neg hj]
        exact List.mem_append.mpr (Or.inl hn)

theorem setupGo_layer_lb (cfg : Config) (r : SetupRand) (w h : ℚ) (layers : List Nat) :
    ∀ (j nid : Nat) (prev : List Node),
      (∀ n ∈ prev, n.layerIndex + 1 = j) →
      ∀ n ∈ setupGo cfg r w h layers j nid prev, j ≤ n.layerIndex + 1 := by
  induction layers with
  | nil =>
    intro j nid prev hlayer n hn
    rw [setupGo] at hn
    exact (hlayer n hn).ge
  | cons c rest ih =>
    intro j nid prev hlayer n hn
    rw [setupGo_cons] at hn
    rcases List.mem_append.mp hn with hnp | hnr
    · by_cases hj : 0 < j
      · rw [if_pos hj] at hnp
        obtain ⟨n₀, hn₀, rfl⟩ := List.mem_map.mp hnp
        rw [connectTo_layerIndex]
        exact (hlayer n₀ hn₀).ge
      · rw [if_neg hj] at hnp
        exact (hlayer n hnp).ge
    · have := ih (j + 1) (nid + c) (buildLayer cfg r w h j c nid)
        (fun m hm => by rw [(mem_buildLayer cfg r w h j c nid m hm).1]) n hnr
      omega

theorem setupGo_conn_bound (cfg : Config) (r : SetupRand) (w h : ℚ)
    (hsh : ∀ s l, (r.shuffle s l).Perm l) (layers : List Nat) :
    ∀ (j nid : Nat) (prev : List Node),
      (∀ n ∈ prev, n.connections = []) →
      (∀ n ∈ prev, n.layerIndex + 1 = j) →
      ∀ n ∈ setupGo cfg r w h layers j nid prev,
        n.connections.length
          ≤ min cfg.maxConnectionsPerNode (layers.getD (n.layerIndex + 1 - j) 0) := by
  induction layers with
  | nil =>
    intro j nid prev hconn _ n hn
    rw [setupGo] at hn
    rw [hconn n hn]
    exact Nat.zero_le _
  | cons c rest ih =>
    intro j nid prev hconn hlayer n hn
    rw [setupGo_cons] at hn
    rcases List.mem_append.mp hn with hnp | hnr
    · by_cases hj : 0 < j
      · rw [if_pos hj] at hnp
        obtain ⟨n₀, hn₀, rfl⟩ := List.mem_map.mp hnp
        rw [connectTo_length cfg r.shuffle _ hsh n₀ (hconn n₀ hn₀), List.length_map,
          buildLayer_length, connectTo_layerIndex]
        have : n₀.layerIndex + 1 - j = 0 := by rw [hlayer n₀ hn₀]; omega
        rw [this, List.getD_cons_zero]
      · rw [if_neg hj] at hnp
        exact absurd (hlayer n hnp) (by omega)
    · have hlb := setupGo_layer_lb cfg r w h rest (j + 1) (nid + c)
        (buildLayer cfg r w h j c nid)
        (fun m hm => by rw [(mem_buildLayer cfg r w h j c nid m hm).1]) n hnr
      have hub := ih (j + 1) (nid + c) (buildLayer cfg r w h j c nid)
        (fun m hm => (mem_buildLayer cfg r w h j c nid m hm).2.1)
        (fun m hm => by rw [(mem_buildLayer cfg r w h j c nid m hm).1]) n hnr
      have h1 : n.layerIndex + 1 - j = (n.layerIndex + 1 - (j + 1)) + 1 := by omega
      rw [h1, List.getD_cons_succ]
      exact hub

theorem setupGo_act (cfg : Config) (r : SetupRand) (w h : ℚ) (layers : List Nat) :
    ∀ (j nid : Nat) (prev : List Node),
      (∀ n ∈ prev, n.activationLevel = 0) →
      ∀ n ∈ setupGo cfg r w h layers j nid prev, n.activationLevel = 0 := by
  induction layers with
  | nil =>
    intro j nid prev hact n hn
    rw [setupGo] at hn
    exact hact n hn
  | cons c rest ih =>
    intro j nid prev hact n hn
    rw [setupGo_cons] at hn
    rcases List.mem_append.mp hn with hnp | hnr
    · by_cases hj : 0 < j
      · rw [if_pos hj] at hnp
        obtain ⟨n₀, hn₀, rfl⟩ := List.mem_map.mp hnp
        rw [connectTo_activationLevel]
        exact hact n₀ hn₀
      · rw [if_neg hj] at hnp
        exact hact n hnp
    · exact ih (j + 1) (nid + c) (buildLayer cfg r w h j c nid)
        (fun m hm => (mem_buildLayer cfg r w h j c nid m hm).2.2) n hnr

theorem setupGo_count (cfg : Config) (r : SetupRand) (w h : ℚ) (layers : List Nat) :
    ∀ (j nid : Nat) (prev : List Node),
      (∀ n ∈ prev, n.layerIndex + 1 = j) →
      ∀ k, ((setupGo cfg r w h layers j nid prev).filter (fun n => n.layerIndex == k)).length
        = if k + 1 = j then prev.length else if j ≤ k then layers.getD (k - j) 0 else 0 := by
  induction layers with
  | nil =>
    intro j nid prev hlayer k
    rw [setupGo]
    by_cases hk : k + 1 = j
    · rw [if_pos hk, List.filter_eq_self.mpr]
      intro n hn
      have := hlayer n hn
      simp only [beq_iff_eq]
      omega
    · rw [if_neg hk, List.filter_eq_nil_iff.mpr, List.length_nil]
      · split
        · simp
        · rfl
      · intro n hn
        have := hlayer n hn
        simp only [beq_iff_eq]
        omega
  | cons c rest ih =>
    intro j nid prev hlayer k
    rw [setupGo_cons, List.filter_append, List.length_append]
    have hprevC : ((if 0 < j then
          prev.map (connectTo cfg r.shuffle ((buildLayer cfg r w h j c nid).map (fun m => m.id)))
         else prev).filter (fun n => n.layerIndex == k)).length
        = if k + 1 = j then prev.length else 0 := by
      have hmem : ∀ n ∈ (if 0 < j then
          prev.map (connectTo cfg r.shuffle ((buildLayer cfg r w h j c nid).map (fun m => m.id)))
         else prev), n.layerIndex + 1 = j := by
        intro n hn
        split at hn
        · obtain ⟨n₀, hn₀, rfl⟩ := List.mem_map.mp hn
          rw [connectTo_layerIndex]
          exact hlayer n₀ hn₀
        · exact hlayer n hn
      have hlen : (if 0 < j then
          prev.map (connectTo cfg r.shuffle ((buildLayer cfg r w h j c nid).map (fun m => m.id)))
         else prev).length = prev.length := by
        split
        · rw [List.length_map]
        · rfl
      by_cases hk : k + 1 = j
      · rw [if_pos hk, List.filter_eq_self.mpr, hlen]
        intro n hn
        have := hmem n hn
        simp only [beq_iff_eq]
        omega
      · rw [if_neg hk, List.filter_eq_nil_iff.mpr, List.length_nil]
        intro n hn
        have := hmem n hn
        simp only [beq_iff_eq]
        omega
    have hrest := ih (j + 1) (nid + c) (buildLayer cfg r w h j c nid)
      (fun m hm => by rw [(mem_buildLayer cfg r w h j c nid m hm).1]) k
    rw [hprevC, hrest, buildLayer_length]
    by_cases h1 : k + 1 = j
    · have e1 : ¬ k + 1 = j + 1 := by omega
      have e2 : ¬ j + 1 ≤ k := by omega
      rw [if_pos h1, if_pos h1, if_neg e1, if_neg e2]
      omega
    · by_cases h2 : k = j
      · subst h2
        have e1 : ¬ k + 1 = k := by omega
        rw [if_neg e1, if_neg e1, if_pos rfl, if_pos (le_refl k), Nat.sub_self,
          List.getD_cons_zero]
        omega
      · by_cases h3 : j ≤ k
        · have e1 : ¬ k + 1 = j := by omega
          have e2 : ¬ k + 1 = j + 1 := by omega
          have e3 : j + 1 ≤ k := by omega
          have e4 : k - j = (k - (j + 1)) + 1 := by omega
          rw [if_neg e1, if_neg e1, if_neg e2, if_pos e3, if_pos h3, e4, List.getD_cons_succ]
          omega
        · have e1 : ¬ k + 1 = j := by omega
          have e2 : ¬ k + 1 = j + 1 := by omega
          have e3 : ¬ j + 1 ≤ k := by omega
          rw [if_neg e1, if_neg e1, if_neg e2, if_neg e3, if_neg h3]

/-! ### Positional lemmas about one tick of the activation simulator -/

theorem addSignal_getElem? (amt : ℚ) (tid : Nat) (ns : List Node) (p : Nat) :
    (addSignal amt tid ns)[p]?
      = ns[p]?.map (fun t =>
          if t.id == tid then { t with incomingSignal := t.incomingSignal + amt } else t) := by
  rw [addSignal, List.getElem?_map]

theorem addSignal_length (amt : ℚ) (tid : Nat) (ns : List Node) :
    (addSignal amt tid ns).length = ns.length := by
  rw [addSignal, List.length_map]

theorem foldl_addSignal_length (amt : ℚ) (conns : List Conn) :
    ∀ acc : List Node,
      (conns.foldl (fun acc c => addSignal amt c.targetId acc) acc).length = acc.length := by
  induction conns with
  | nil => intro acc; rfl
  | cons c cs ih => intro acc; rw [List.foldl_cons, ih, addSignal_length]

theorem foldl_addSignal_getElem? (amt : ℚ) (conns : List Conn) :
    ∀ (acc : List Node) (p : Nat),
      (conns.foldl (fun acc c => addSignal amt c.targetId acc) acc)[p]?
        = acc[p]?.map (fun t => { t with incomingSignal := t.incomingSignal
            + ((conns.filter (fun c => c.targetId == t.id)).length : ℚ) * amt }) := by
  induction conns with
  | nil =>
    intro acc p
    rw [List.foldl_nil]
    cases h : acc[p]? with
    | none => rfl
    | some t => simp
  | cons c cs ih =>
    intro acc p
    rw [List.foldl_cons, ih, addSignal_getElem?, Option.map_map]
    cases h : acc[p]? with
    | none => rfl
    | some t =>
      obtain ⟨tid0, tx, ty, tbr, tcr, tli, tal, tis, tconn⟩ := t
      by_cases hid : c.targetId = tid0
      · simp [Function.comp, hid, List.filter_cons]
        ring
      · have hid2 : ¬ tid0 = c.targetId := fun e => hid e.symm
        simp [Function.comp, hid, hid2, List.filter_cons]

theorem propagateStep_length (cfg : Config) (ns : List Node) (i : Nat) :
    (propagateStep cfg ns i).length = ns.length := by
  cases h : ns[i]? with
  | none => simp only [propagateStep, h]
  | some src =>
    simp only [propagateStep, h]
    split
    · exact foldl_addSignal_length _ _ _
    · rfl

theorem propagateStep_getElem? (cfg : Config) (ns : List Node) (i p : Nat) :
    (propagateStep cfg ns i)[p]?
      = ns[p]?.map (fun t => { t with incomingSignal := t.incomingSignal
          + (match ns[i]? with | some src => contribOf cfg src t.id | none => 0) }) := by
  cases h : ns[i]? with
  | none =>
    simp only [propagateStep, h]
    cases hp : ns[p]? with
    | none => rfl
    | some t => simp
  | some src =>
    simp only [propagateStep, h]
    split_ifs with hact
    · rw [foldl_addSignal_getElem?]
      cases hp : ns[p]? with
      | none => rfl
      | some t => simp [contribOf, hact]
    · cases hp : ns[p]? with
      | none => rfl
      | some t => simp [contribOf, hact]

theorem foldl_propagateStep_inv (cfg : Config) (ns : List Node) (is : List Nat) :
    ∀ (acc : List Node) (g : Nat → ℚ),
      acc.length = ns.length →
      (∀ (p : Nat) (n : Node), ns[p]? = some n →
        acc[p]? = some { n with incomingSignal := g p }) →
      ∀ (p : Nat) (n : Node), ns[p]? = some n →
        (is.foldl (propagateStep cfg) acc)[p]?
          = some { n with incomingSignal := g p
              + ((is.map (fun i => match ns[i]? with
                  | some s => contribOf cfg s n.id | none => 0)).sum) } := by
  induction is with
  | nil =>
    intro acc g _ hacc p n hp
    rw [List.foldl_nil, hacc p n hp]
    simp
  | cons i is ih =>
    intro acc g hlen hacc p n hp
    rw [List.foldl_cons]
    have hstep : ∀ (q : Nat) (m : Node), ns[q]? = some m →
        (propagateStep cfg acc i)[q]?
          = some { m with incomingSignal := g q + (match ns[i]? with
              | some s => contribOf cfg s m.id | none => 0) } := by
      intro q m hq
      rw [propagateStep_getElem? cfg acc i q, hacc q m hq]
      cases hi : ns[i]? with
      | none =>
        have hacci : acc[i]? = none := by
          rw [List.getElem?_eq_none_iff, hlen, ← List.getElem?_eq_none_iff]
          exact hi
        rw [hacci]
        simp
      | some s =>
        rw [hacc i s hi]
        simp [contribOf]
    have hmain := ih (propagateStep cfg acc i)
      (fun q => g q + (match ns[q]? with
        | some m => (match ns[i]? with | some s => contribOf cfg s m.id | none => 0)
        | none => 0))
      (by rw [propagateStep_length, hlen])
      (by
        intro q m hq
        rw [hstep q m hq]
        simp only [hq])
      p n hp
    rw [hmain]
    simp only [hp, List.map_cons, List.sum_cons, add_assoc]

theorem range_lookup_sum (ns : List Node) (F : Node → ℚ) :
    ((List.range ns.length).map (fun i => match ns[i]? with | some s => F s | none => 0)).sum
      = (ns.map F).sum := by
  induction ns with
  | nil => rfl
  | cons a l ih =>
    rw [List.length_cons, List.range_succ_eq_map, List.map_cons, List.map_map, List.sum_cons,
      List.map_cons, List.sum_cons, ← ih]
    congr 1
    · simp
    · congr 1
      apply List.map_congr_left
      intro i _
      simp [Function.comp, List.getElem?_cons_succ]

theorem phase1_length (cfg : Config) (ns : List Node) : (phase1 cfg ns).length = ns.length := by
  rw [phase1]
  have hfold : ∀ (is : List Nat) (acc : List Node),
      (is.foldl (propagateStep cfg) acc).length = acc.length := by
    intro is
    induction is with
    | nil => intro acc; rfl
    | cons i is ih => intro acc; rw [List.foldl_cons, ih, propagateStep_length]
  rw [hfold, List.length_map]

theorem phase1_getElem? (cfg : Config) (ns : List Node) (p : Nat) (n : Node)
    (h : ns[p]? = some n) :
    (phase1 cfg ns)[p]? = some { n with incomingSignal := incomingFor cfg ns n.id } := by
  rw [phase1]
  have hmain := foldl_propagateStep_inv cfg ns (List.range ns.length)
    (ns.map (fun m => { m with incomingSignal := 0 })) (fun _ => 0)
    (List.length_map _ _)
    (by
      intro q m hq
      rw [List.getElem?_map, hq]
      rfl)
    p n h
  rw [hmain, zero_add, range_lookup_sum]
  rfl

theorem update_length (cfg : Config) (rand wave : Nat → ℚ) (ns : List Node) :
    (update cfg rand wave ns).length = ns.length := by
  rw [update, List.length_map, phase1_length]

theorem update_getElem? (cfg : Config) (rand wave : Nat → ℚ) (ns : List Node) (p : Nat)
    (n : Node) (h : ns[p]? = some n) :
    (update cfg rand wave ns)[p]?
      = some (stepNode cfg rand wave { n with incomingSignal := incomingFor cfg ns n.id }) := by
  rw [update, List.getElem?_map, phase1_getElem? cfg ns p n h]
  rfl

theorem mem_of_lookup (l : List Node) (i : Nat) (a : Node) (h : l[i]? = some a) : a ∈ l := by
  induction l generalizing i with
  | nil => simp at h
  | cons b t ih =>
    cases i with
    | zero =>
      rw [List.getElem?_cons_zero] at h
      cases Option.some.inj h
      exact List.mem_cons_self _ _
    | succ j =>
      rw [List.getElem?_cons_succ] at h
      exact List.mem_cons_of_mem b (ih j h)

theorem stepNode_act_boost (cfg : Config) (rand wave : Nat → ℚ) (n : Node)
    (hL : ¬ n.layerIndex = 0) (hθ : 0 < cfg.activationThreshold)
    (hb : 0 ≤ cfg.activationBoost) (hS : cfg.activationThreshold ≤ n.incomingSignal) :
    (stepNode cfg rand wave n).activationLevel
      = max (if cfg.minActivationLevel < n.activationLevel
             then n.activationLevel - cfg.decayRate else n.activationLevel) (1/10)
        + cfg.activationBoost * (n.incomingSignal / cfg.activationThreshold) := by
  simp only [stepNode, if_neg hL, if_pos hS]
  apply max_eq_right
  have h1 : (1:ℚ)/10
      ≤ max (if cfg.minActivationLevel < n.activationLevel
             then n.activationLevel - cfg.decayRate else n.activationLevel) (1/10) :=
    le_max_right _ _
  have h2 : 0 ≤ cfg.activationBoost * (n.incomingSignal / cfg.activationThreshold) :=
    mul_nonneg hb (div_nonneg (le_trans hθ.le hS) hθ.le)
  linarith

theorem stepNode_act_noboost (cfg : Config) (rand wave : Nat → ℚ) (n : Node)
    (hpos : 0 ≤ n.activationLevel)
    (hnb : if n.layerIndex = 0 then ¬ rand n.id < cfg.inputActivationProbability
           else n.incomingSignal < cfg.activationThreshold) :
    (stepNode cfg rand wave n).activationLevel
      = if cfg.minActivationLevel < n.activationLevel
        then max 0 (n.activationLevel - cfg.decayRate) else n.activationLevel := by
  by_cases hL : n.layerIndex = 0
  · rw [if_pos hL] at hnb
    simp only [stepNode, if_pos hL, if_neg hnb]
    split_ifs with hd
    · rfl
    · exact max_eq_right hpos
  · rw [if_neg hL] at hnb
    simp only [stepNode, if_neg hL, if_neg (not_le.mpr hnb)]
    split_ifs with hd
    · rfl
    · exact max_eq_right hpos

/-! ### Claims -/

/-- C1: For every connection (s → t) in a topology produced by setup, the
layer index of the target (resolved through the node map) equals the layer
index of the source plus one; in particular nodes of the last layer (or
beyond) have no outgoing connections, so there are no skip-layer edges and
no cycles.  The hypothesis states that the JS comparator shuffle returns a
permutation of its input. -/
theorem setup_forward_only (cfg : Config) (r : SetupRand) (w hgt : ℚ)
    (hsh : ∀ s l, (r.shuffle s l).Perm l) :
    (∀ n ∈ setup cfg r w hgt, ∀ co ∈ n.connections,
      ∃ t, findNode (setup cfg r w hgt) co.targetId = some t
        ∧ t.layerIndex = n.layerIndex + 1)
    ∧ (∀ n ∈ setup cfg r w hgt, cfg.layers.length ≤ n.layerIndex + 1 →
        n.connections = []) := by
  constructor
  · intro n hn co hco
    obtain ⟨hfwd, -⟩ := setupGo_forward cfg r w hgt hsh cfg.layers 0 0 []
      (fun m hm => absurd hm (List.not_mem_nil m))
      (fun m hm => absurd hm (List.not_mem_nil m))
    obtain ⟨t, ht, hid, hlay⟩ := hfwd n hn co hco
    refine ⟨t, ?_, hlay⟩
    rw [← hid]
    exact findNode_eq_of_mem (setup cfg r w hgt) (setup_id_nodup cfg r w hgt) t ht
  · intro n hn hlast
    have hb := setupGo_conn_bound cfg r w hgt hsh cfg.layers 0 0 []
      (fun m hm => absurd hm (List.not_mem_nil m))
      (fun m hm => absurd hm (List.not_mem_nil m)) n hn
    rw [Nat.sub_zero, List.getD_eq_default _ _ hlast, Nat.min_zero] at hb
    exact List.length_eq_zero.mp (Nat.le_zero.mp hb)

/-- Witness for C1 at the concrete `[1, 1]` topology: the input node carries
one connection, whose target resolves to a node one layer deeper. -/
theorem setup_forward_only_witness :
    (⟨0, 0, 2, 3, 3, 0, 0, 0, [⟨1⟩]⟩ : Node) ∈ setup cfgW rW 4 4
    ∧ (∃ t, findNode (setup cfgW rW 4 4) (Conn.mk 1).targetId = some t
        ∧ t.layerIndex = (⟨0, 0, 2, 3, 3, 0, 0, 0, [⟨1⟩]⟩ : Node).layerIndex + 1) := by
  have hmem : (⟨0, 0, 2, 3, 3, 0, 0, 0, [⟨1⟩]⟩ : Node) ∈ setup cfgW rW 4 4 := by
    norm_num [setup, setupGo, buildLayer, connectTo, cfgW, rW, List.range_succ]
  refine ⟨hmem, ?_⟩
  exact (setup_forward_only cfgW rW 4 4 (fun s l => List.Perm.refl l)).1 _ hmem
    ⟨1⟩ (List.mem_singleton.mpr rfl)

/-- C6: For every node in a topology produced by setup, the number of
outgoing connections is at most
`min maxConnectionsPerNode (number of nodes of the next layer)`, and a
layer-size sequence of length 1 produces only nodes with zero
connections. -/
theorem setup_fanout_bound (cfg : Config) (r : SetupRand) (w hgt : ℚ)
    (hsh : ∀ s l, (r.shuffle s l).Perm l) :
    (∀ n ∈ setup cfg r w hgt,
      n.connections.length
        ≤ min cfg.maxConnectionsPerNode
            ((setup cfg r w hgt).filter
              (fun m => m.layerIndex == n.layerIndex + 1)).length)
    ∧ (cfg.layers.length = 1 → ∀ n ∈ setup cfg r w hgt, n.connections = []) := by
  constructor
  · intro n hn
    have hb := setupGo_conn_bound cfg r w hgt hsh cfg.layers 0 0 []
      (fun m hm => absurd hm (List.not_mem_nil m))
      (fun m hm => absurd hm (List.not_mem_nil m)) n hn
    rw [Nat.sub_zero] at hb
    have hc : ((setup cfg r w hgt).filter
        (fun m => m.layerIndex == n.layerIndex + 1)).length
        = cfg.layers.getD (n.layerIndex + 1) 0 := by
      have := setupGo_count cfg r w hgt cfg.layers 0 0 []
        (fun m hm => absurd hm (List.not_mem_nil m)) (n.layerIndex + 1)
      rw [if_neg (by omega), if_pos (Nat.zero_le _), Nat.sub_zero] at this
      exact this
    rw [hc]
    exact hb
  · intro hlen n hn
    have hb := setupGo_conn_bound cfg r w hgt hsh cfg.layers 0 0 []
      (fun m hm => absurd hm (List.not_mem_nil m))
      (fun m hm => absurd hm (List.not_mem_nil m)) n hn
    rw [Nat.sub_zero, List.getD_eq_default _ _ (by omega), Nat.min_zero] at hb
    exact List.length_eq_zero.mp (Nat.le_zero.mp hb)

/-- Witness for C6 at the concrete `[1, 1]` topology: the single connection
of the input node respects the bound `min 5 1 = 1`. -/
theorem setup_fanout_bound_witness :
    (⟨0, 0, 2, 3, 3, 0, 0, 0, [⟨1⟩]⟩ : Node) ∈ setup cfgW rW 4 4
    ∧ (⟨0, 0, 2, 3, 3, 0, 0, 0, [⟨1⟩]⟩ : Node).connections.length
        ≤ min cfgW.maxConnectionsPerNode
            ((setup cfgW rW 4 4).filter
              (fun m =>
                m.layerIndex == (⟨0, 0, 2, 3, 3, 0, 0, 0, [⟨1⟩]⟩ : Node).layerIndex + 1)).length := by
  have hmem : (⟨0, 0, 2, 3, 3, 0, 0, 0, [⟨1⟩]⟩ : Node) ∈ setup cfgW rW 4 4 := by
    norm_num [setup, setupGo, buildLayer, connectTo, cfgW, rW, List.range_succ]
  exact ⟨hmem, (setup_fanout_bound cfgW rW 4 4 (fun s l => List.Perm.refl l)).1 _ hmem⟩

/-- C4: Every node of a freshly built topology has nonnegative (indeed zero)
activation, and every tick of the simulator produces only nonnegative
activation levels, whatever the input state: the invariant
`activationLevel ≥ 0` holds at all times. -/
theorem activation_nonneg :
    (∀ (cfg : Config) (r : SetupRand) (w hgt : ℚ),
      ∀ n ∈ setup cfg r w hgt, 0 ≤ n.activationLevel)
    ∧ ∀ (cfg : Config) (rand wave : Nat → ℚ) (ns : List Node),
        ∀ n ∈ update cfg rand wave ns, 0 ≤ n.activationLevel := by
  constructor
  · intro cfg r w hgt n hn
    have := setupGo_act cfg r w hgt cfg.layers 0 0 []
      (fun m hm => absurd hm (List.not_mem_nil m)) n hn
    rw [this]
  · intro cfg rand wave ns n hn
    rw [update] at hn
    obtain ⟨m, -, rfl⟩ := List.mem_map.mp hn
    simp only [stepNode]
    exact le_max_left 0 _

/-- Witness for C4: the decayed source node of the concrete tick has
nonnegative activation. -/
theorem activation_nonneg_witness :
    srcPostW ∈ update cfgW randW waveW nsW ∧ 0 ≤ srcPostW.activationLevel := by
  have hmem : srcPostW ∈ update cfgW randW waveW nsW := by
    norm_num [update, phase1, propagateStep, addSignal, stepNode, contribOf, nsW, srcW, tgtW,
      cfgW, randW, waveW, srcPostW, List.range_succ]
  exact ⟨hmem, activation_nonneg.2 cfgW randW waveW nsW srcPostW hmem⟩

/-- C10: A tick never touches the topology: `update` preserves the length of
the node list and, position by position, the `id`, `x`, `y`, `layerIndex`,
`baseRadius` and `connections` of every node — only `activationLevel`,
`incomingSignal` and `currentRadius` may change. -/
theorem update_preserves_topology (cfg : Config) (rand wave : Nat → ℚ) (ns : List Node) :
    (update cfg rand wave ns).length = ns.length
    ∧ ∀ (p : Nat) (n m : Node), ns[p]? = some n →
        (update cfg rand wave ns)[p]? = some m →
        m.id = n.id ∧ m.x = n.x ∧ m.y = n.y ∧ m.layerIndex = n.layerIndex
          ∧ m.baseRadius = n.baseRadius ∧ m.connections = n.connections := by
  refine ⟨update_length cfg rand wave ns, ?_⟩
  intro p n m hp hm
  rw [update_getElem? cfg rand wave ns p n hp] at hm
  obtain rfl := Option.some.inj hm
  exact ⟨rfl, rfl, rfl, rfl, rfl, rfl⟩

/-- Witness for C10 on the concrete tick: the post-tick source node agrees
with the pre-tick one on every topological field. -/
theorem update_preserves_topology_witness :
    nsW[0]? = some srcW ∧ (update cfgW randW waveW nsW)[0]? = some srcPostW
    ∧ (srcPostW.id = srcW.id ∧ srcPostW.x = srcW.x ∧ srcPostW.y = srcW.y
        ∧ srcPostW.layerIndex = srcW.layerIndex ∧ srcPostW.baseRadius = srcW.baseRadius
        ∧ srcPostW.connections = srcW.connections) := by
  have h1 : nsW[0]? = some srcW := rfl
  have h2 : (update cfgW randW waveW nsW)[0]? = some srcPostW := by
    norm_num [update, phase1, propagateStep, addSignal, stepNode, contribOf, nsW, srcW, tgtW,
      cfgW, randW, waveW, srcPostW, List.range_succ]
  exact ⟨h1, h2, (update_preserves_topology cfgW randW waveW nsW).2 0 srcW srcPostW h1 h2⟩

/-- C2 counterexample: with pre-tick activation 1, incoming signal 1,
threshold 0.6, boost 1.5 and decay 0.04, the code produces
`max(1 - 0.04, 0.1) + 1.5 * (1/0.6) = 173/50 = 3.46`, not the claimed
`max(1, 0.1) + 1.5 * (1/0.6) = 3.5`: decay is applied to the pre-tick
activation before the threshold boost. -/
theorem threshold_boost_counterexample :
    nsC2[1]? = some tgt2W
    ∧ (update cfgW randW waveW nsC2)[1]? = some tgt2PostW
    ∧ tgt2W.layerIndex ≠ 0
    ∧ cfgW.activationThreshold ≤ tgt2PostW.incomingSignal
    ∧ tgt2PostW.activationLevel
        ≠ max tgt2W.activationLevel (1/10)
          + cfgW.activationBoost * (tgt2PostW.incomingSignal / cfgW.activationThreshold) := by
  refine ⟨rfl, ?_, by norm_num [tgt2W], by norm_num [cfgW, tgt2PostW], ?_⟩
  · norm_num [update, phase1, propagateStep, addSignal, stepNode, contribOf, nsC2, srcW, tgt2W,
      cfgW, randW, waveW, tgt2PostW, List.range_succ]
  · norm_num [cfgW, tgt2W, tgt2PostW]

/-- C2 (amended): for every non-input node whose accumulated incomingSignal
in a tick is `S ≥ activationThreshold`, with randomness not involved, the
post-tick activation equals `max(d, 0.1) + activationBoost * (S /
activationThreshold)` exactly, where `d` is the pre-tick activation with
decay already applied: `d = pre - decayRate` when
`pre > minActivationLevel`, else `d = pre`. -/
theorem threshold_boost_after_decay (cfg : Config) (rand wave : Nat → ℚ) (ns : List Node)
    (p : Nat) (n m : Node) (hp : ns[p]? = some n)
    (hm : (update cfg rand wave ns)[p]? = some m)
    (hL : n.layerIndex ≠ 0) (hθ : 0 < cfg.activationThreshold)
    (hb : 0 ≤ cfg.activationBoost) (hS : cfg.activationThreshold ≤ m.incomingSignal) :
    m.activationLevel
      = max (if cfg.minActivationLevel < n.activationLevel
             then n.activationLevel - cfg.decayRate else n.activationLevel) (1/10)
        + cfg.activationBoost * (m.incomingSignal / cfg.activationThreshold) := by
  rw [update_getElem? cfg rand wave ns p n hp] at hm
  obtain rfl := Option.some.inj hm
  exact stepNode_act_boost cfg rand wave
    { n with incomingSignal := incomingFor cfg ns n.id } hL hθ hb hS

/-- Witness for the amended C2, reproducing the `[1,1]` scenario of the spec:
source forced to activation 1, target quiescent, so `S = 1 ≥ 0.6` and the
target lands at `max(0, 0.1) + 1.5 * (1/0.6) = 2.6`. -/
theorem threshold_boost_after_decay_witness :
    nsW[1]? = some tgtW
    ∧ (update cfgW randW waveW nsW)[1]? = some tgtPostW
    ∧ tgtW.layerIndex ≠ 0
    ∧ (0:ℚ) < cfgW.activationThreshold
    ∧ (0:ℚ) ≤ cfgW.activationBoost
    ∧ cfgW.activationThreshold ≤ tgtPostW.incomingSignal
    ∧ tgtPostW.activationLevel
        = max (if cfgW.minActivationLevel < tgtW.activationLevel
               then tgtW.activationLevel - cfgW.decayRate else tgtW.activationLevel) (1/10)
          + cfgW.activationBoost * (tgtPostW.incomingSignal / cfgW.activationThreshold) := by
  have h1 : nsW[1]? = some tgtW := rfl
  have h2 : (update cfgW randW waveW nsW)[1]? = some tgtPostW := by
    norm_num [update, phase1, propagateStep, addSignal, stepNode, contribOf, nsW, srcW, tgtW,
      cfgW, randW, waveW, tgtPostW, List.range_succ]
  have h3 : tgtW.layerIndex ≠ 0 := by norm_num [tgtW]
  have h4 : (0:ℚ) < cfgW.activationThreshold := by norm_num [cfgW]
  have h5 : (0:ℚ) ≤ cfgW.activationBoost := by norm_num [cfgW]
  have h6 : cfgW.activationThreshold ≤ tgtPostW.incomingSignal := by norm_num [cfgW, tgtPostW]
  exact ⟨h1, h2, h3, h4, h5, h6,
    threshold_boost_after_decay cfgW randW waveW nsW 1 tgtW tgtPostW h1 h2 h3 h4 h5 h6⟩

/-- C3: In every tick, propagation reads a frozen snapshot: the post-tick
incomingSignal of the node at each position equals the closed-form sum, over
all connections of pre-tick sources with activation strictly above
minActivationLevel, of `activation × signalPropagationSpeed` — computed
entirely from the pre-tick state.  Moreover, in a topology whose
connections are forward-only with distinct ids (as setup builds, theorems
`setup_forward_only` and `setup_id_nodup`), input-layer nodes accumulate
nothing. -/
theorem update_incoming_snapshot (cfg : Config) (rand wave : Nat → ℚ) (ns : List Node) :
    (∀ (p : Nat) (n m : Node), ns[p]? = some n →
      (update cfg rand wave ns)[p]? = some m →
      m.incomingSignal = incomingFor cfg ns n.id)
    ∧ (((ns.map (fun n => n.id)).Nodup
        ∧ (∀ s ∈ ns, ∀ co ∈ s.connections,
            ∃ t ∈ ns, t.id = co.targetId ∧ t.layerIndex = s.layerIndex + 1)) →
      ∀ (p : Nat) (n m : Node), ns[p]? = some n →
        (update cfg rand wave ns)[p]? = some m →
        n.layerIndex = 0 → m.incomingSignal = 0) := by
  have hkey : ∀ (p : Nat) (n m : Node), ns[p]? = some n →
      (update cfg rand wave ns)[p]? = some m →
      m.incomingSignal = incomingFor cfg ns n.id := by
    intro p n m hp hm
    rw [update_getElem? cfg rand wave ns p n hp] at hm
    obtain rfl := Option.some.inj hm
    rfl
  refine ⟨hkey, ?_⟩
  rintro ⟨hnodup, hfwd⟩ p n m hp hm h0
  rw [hkey p n m hp hm, incomingFor]
  apply List.sum_eq_zero
  intro q hq
  obtain ⟨s, hs, rfl⟩ := List.mem_map.mp hq
  rw [contribOf]
  split_ifs with hact
  · have hfilter : s.connections.filter (fun c => c.targetId == n.id) = [] := by
      rw [List.filter_eq_nil_iff]
      intro co hco hbeq
      have hco_tid : co.targetId = n.id := by simpa using hbeq
      obtain ⟨t, ht, htid, htlay⟩ := hfwd s hs co hco
      have hn_mem : n ∈ ns := mem_of_lookup ns p n hp
      have hteq : t = n :=
        List.inj_on_of_nodup_map hnodup ht hn_mem (by rw [htid, hco_tid])
      rw [hteq] at htlay
      omega
    rw [hfilter]
    simp
  · rfl

/-- Witness for C3 on the concrete tick: the accumulated signal of the target
matches the closed-form sum (here, 1), and the input-layer source
accumulates nothing. -/
theorem update_incoming_snapshot_witness :
    nsW[1]? = some tgtW
    ∧ (update cfgW randW waveW nsW)[1]? = some tgtPostW
    ∧ tgtPostW.incomingSignal = incomingFor cfgW nsW tgtW.id
    ∧ nsW[0]? = some srcW
    ∧ (update cfgW randW waveW nsW)[0]? = some srcPostW
    ∧ srcW.layerIndex = 0
    ∧ srcPostW.incomingSignal = 0 := by
  have h1 : nsW[1]? = some tgtW := rfl
  have h2 : (update cfgW randW waveW nsW)[1]? = some tgtPostW := by
    norm_num [update, phase1, propagateStep, addSignal, stepNode, contribOf, nsW, srcW, tgtW,
      cfgW, randW, waveW, tgtPostW, List.range_succ]
  have h0 : nsW[0]? = some srcW := rfl
  have h2s : (update cfgW randW waveW nsW)[0]? = some srcPostW := by
    norm_num [update, phase1, propagateStep, addSignal, stepNode, contribOf, nsW, srcW, tgtW,
      cfgW, randW, waveW, srcPostW, List.range_succ]
  have hside : (nsW.map (fun n => n.id)).Nodup
      ∧ (∀ s ∈ nsW, ∀ co ∈ s.connections,
          ∃ t ∈ nsW, t.id = co.targetId ∧ t.layerIndex = s.layerIndex + 1) := by
    constructor
    · norm_num [nsW, srcW, tgtW]
    · intro s hs co hco
      rcases List.mem_cons.mp hs with rfl | hs2
      · rcases List.mem_singleton.mp hco with rfl
        exact ⟨tgtW, by norm_num [nsW], rfl, rfl⟩
      · rcases List.mem_singleton.mp hs2 with rfl
        rcases hco
  exact ⟨h1, h2, (update_incoming_snapshot cfgW randW waveW nsW).1 1 tgtW tgtPostW h1 h2,
    h0, h2s, rfl,
    (update_incoming_snapshot cfgW randW waveW nsW).2 hside 0 srcW srcPostW h0 h2s rfl⟩

/-- C5 counterexample: a layer-1 node with activation `1/200`, strictly
between 0 and `minActivationLevel = 1/100`, receives no boost (signal 0 is
below the 0.6 threshold) yet keeps its activation unchanged at `1/200`; the
claimed strict decrease floored at 0 would force
`max(0, 1/200 - 1/25) = 0`.  The code only decays nodes strictly above the
minimum activation level. -/
theorem decay_below_min_counterexample :
    nsC5[0]? = some nC5
    ∧ (update cfgW randW waveW nsC5)[0]? = some nC5
    ∧ nC5.layerIndex ≠ 0
    ∧ nC5.incomingSignal < cfgW.activationThreshold
    ∧ 0 < nC5.activationLevel
    ∧ nC5.activationLevel ≠ max 0 (nC5.activationLevel - cfgW.decayRate) := by
  refine ⟨rfl, ?_, by norm_num [nC5], by norm_num [cfgW, nC5], by norm_num [nC5], ?_⟩
  · norm_num [update, phase1, propagateStep, addSignal, stepNode, contribOf, nsC5, nC5,
      cfgW, randW, waveW, List.range_succ]
  · norm_num [cfgW, nC5]

/-- C5 (amended): a node that receives no boost during a tick (no
input-layer trigger, and for non-input nodes the accumulated signal stays
below the threshold) ends the tick at `max(0, pre - decayRate)` when its
pre-tick activation exceeds minActivationLevel, and keeps its pre-tick
activation unchanged otherwise (nonnegative pre-tick activation assumed, as
the C4 invariant guarantees). -/
theorem decay_without_boost (cfg : Config) (rand wave : Nat → ℚ) (ns : List Node)
    (p : Nat) (n m : Node) (hp : ns[p]? = some n)
    (hm : (update cfg rand wave ns)[p]? = some m)
    (hpos : 0 ≤ n.activationLevel)
    (hnb : if n.layerIndex = 0 then ¬ rand n.id < cfg.inputActivationProbability
           else m.incomingSignal < cfg.activationThreshold) :
    m.activationLevel
      = if cfg.minActivationLevel < n.activationLevel
        then max 0 (n.activationLevel - cfg.decayRate) else n.activationLevel := by
  rw [update_getElem? cfg rand wave ns p n hp] at hm
  obtain rfl := Option.some.inj hm
  exact stepNode_act_noboost cfg rand wave
    { n with incomingSignal := incomingFor cfg ns n.id } hpos hnb

/-- Witness for the amended C5: the input-layer source of the concrete tick
draws 1 (no trigger) and decays from 1 to `max 0 (1 - 1/25) = 24/25`. -/
theorem decay_without_boost_witness :
    nsW[0]? = some srcW
    ∧ (update cfgW randW waveW nsW)[0]? = some srcPostW
    ∧ (0:ℚ) ≤ srcW.activationLevel
    ∧ (if srcW.layerIndex = 0 then ¬ randW srcW.id < cfgW.inputActivationProbability
       else srcPostW.incomingSignal < cfgW.activationThreshold)
    ∧ srcPostW.activationLevel
        = (if cfgW.minActivationLevel < srcW.activationLevel
           then max 0 (srcW.activationLevel - cfgW.decayRate) else srcW.activationLevel) := by
  have h1 : nsW[0]? = some srcW := rfl
  have h2 : (update cfgW randW waveW nsW)[0]? = some srcPostW := by
    norm_num [update, phase1, propagateStep, addSignal, stepNode, contribOf, nsW, srcW, tgtW,
      cfgW, randW, waveW, srcPostW, List.range_succ]
  have h3 : (0:ℚ) ≤ srcW.activationLevel := by norm_num [srcW]
  have h4 : (if srcW.layerIndex = 0 then ¬ randW srcW.id < cfgW.inputActivationProbability
      else srcPostW.incomingSignal < cfgW.activationThreshold) := by
    norm_num [srcW, randW, cfgW]
  exact ⟨h1, h2, h3, h4, decay_without_boost cfgW randW waveW nsW 0 srcW srcPostW h1 h2 h3 h4⟩

theorem lerpColor_zero (A B : ColorObj) (hA : intColor A) : lerpColor A B 0 = A := by
  obtain ⟨⟨hr1, hr2, hr3⟩, ⟨hg1, hg2, hg3⟩, ⟨hb1, hb2, hb3⟩⟩ := hA
  have hcl : max (0:ℚ) (min 1 0) = 0 := by norm_num
  simp only [lerpColor, lerp, hcl, mul_zero, add_zero]
  rw [hr1, hg1, hb1, min_eq_right hr3, min_eq_right hg3, min_eq_right hb3,
    max_eq_right hr2, max_eq_right hg2, max_eq_right hb2]

/-- C7: The connection visual mapping, as a pure function of the clamped
activation `a ∈ [0, 1]`: at `a = 0` it yields exactly the dim base
connection color, the base stroke width and zero glow; at `a = 1` it yields
exactly the last palette entry, the active stroke width and the configured
glow blur.  The color hypotheses say the dim color and the last palette
entry have integral channels inside [0, 255], as `parseColor` produces for
any in-range rgba string. -/
theorem connectionVisual_boundary (cfg : Config) (palette : List ColorObj)
    (dim lastC : ColorObj) (hlast : palette.getLast? = some lastC)
    (hdim : intColor dim) (hlc : intColor lastC) :
    connectionVisual cfg palette dim 0 = (dim, cfg.connectionWidth, 0)
    ∧ connectionVisual cfg palette dim 1
        = (lastC, cfg.activeConnectionWidth, cfg.connectionGlowBlur) := by
  have hne : palette ≠ [] := by
    intro he
    rw [he] at hlast
    cases hlast
  obtain ⟨m, hm⟩ : ∃ m, palette.length = m + 1 := by
    cases hp : palette with
    | nil => exact absurd hp hne
    | cons x xs => exact ⟨xs.length, rfl⟩
  constructor
  · simp only [connectionVisual, lerp]
    norm_num
    exact lerpColor_zero dim _ hdim
  · have hgd : palette.getD m { r := 0, g := 0, b := 0, a := 0 } = lastC := by
      rw [List.getLast?_eq_getElem?, hm, Nat.add_sub_cancel] at hlast
      have hlt : m < palette.length := by omega
      rw [List.getD_eq_getElem palette _ hlt, ← Option.some_inj,
        ← List.getElem?_eq_getElem hlt, hlast]
    simp only [connectionVisual, lerp, hm]
    have hc1 : ((m + 1 : ℕ) : ℚ) - 1 = (m : ℚ) := by push_cast; ring
    have hc2 : (⌊(1:ℚ) * (m:ℚ)⌋).toNat = m := by
      rw [one_mul, Int.floor_natCast, Int.toNat_natCast]
    rw [hc1, hc2, Nat.add_sub_cancel, min_eq_left (Nat.le_succ m), hgd]
    have hc3 : (1:ℚ) * (m:ℚ) - (m:ℚ) = 0 := by ring
    rw [hc3]
    have hnot : ¬ ((1:ℚ) < 1/10) := by norm_num
    rw [if_neg hnot, lerpColor_zero lastC lastC hlc]
    norm_num

/-- Witness for C7 at the default palette and dim color of the source. -/
theorem connectionVisual_boundary_witness :
    paletteW.getLast? = some { r := 255, g := 255, b := 255, a := 9/10 }
    ∧ connectionVisual cfgW paletteW dimW 0 = (dimW, cfgW.connectionWidth, 0)
    ∧ connectionVisual cfgW paletteW dimW 1
        = ({ r := 255, g := 255, b := 255, a := 9/10 }, cfgW.activeConnectionWidth,
           cfgW.connectionGlowBlur) := by
  have hlast : paletteW.getLast? = some { r := 255, g := 255, b := 255, a := 9/10 } := rfl
  have hdim : intColor dimW := by norm_num [intColor, dimW, round_eq]
  have hlc : intColor ({ r := 255, g := 255, b := 255, a := 9/10 } : ColorObj) := by
    norm_num [intColor, round_eq]
  obtain ⟨h0, h1⟩ := connectionVisual_boundary cfgW paletteW dimW _ hlast hdim hlc
  exact ⟨hlast, h0, h1⟩

/-- C8: Color pre-processing is total and never throws: an empty
activeConnectionColors palette is replaced by the single-entry fallback
`{255, 255, 255, 0.9}`, and for every input the processed palette is
nonempty, so the system keeps operating on it. -/
theorem processColors_empty_palette :
    (∀ (a b c : Option ColorObj),
      (processColors a b c []).parsedActiveConnectionColors
        = [{ r := 255, g := 255, b := 255, a := 9/10 }])
    ∧ ∀ (a b c : Option ColorObj) (pal : List (Option ColorObj)),
        1 ≤ (processColors a b c pal).parsedActiveConnectionColors.length := by
  constructor
  · intro a b c
    rfl
  · intro a b c pal
    cases pal with
    | nil => simp [processColors]
    | cons o os => simp [processColors]

/-- C9: start and stop are idempotent: from any engine state, a second
consecutive start (even with a fresh frame handle) is a no-op, and so is a
second consecutive stop. -/
theorem start_stop_idempotent :
    (∀ (cfg : Config) (r : SetupRand) (w hgt : ℚ) (k1 k2 : Nat) (e : Engine),
      start cfg r w hgt k2 (start cfg r w hgt k1 e) = start cfg r w hgt k1 e)
    ∧ ∀ e : Engine, stop (stop e) = stop e := by
  constructor
  · intro cfg r w hgt k1 k2 e
    cases he : e.animationFrameId with
    | some k => simp [start, he]
    | none => simp [start, he]
  · intro e
    cases he : e.animationFrameId with
    | some k => simp [stop, he]
    | none => simp [stop, he]

end NeuralAnimation
